import Mathlib

/-!
# CAHC ("ChaCha-AES Hybrid Cipher") — a verification model

Shallow embedding of the custom symmetric encryption system implemented in
`src/src/crypto/bcrypt.ts` (third document in that file: `deriveKey`,
`chachaLayer`, `encrypt`, `decrypt`, `getEncryptionInfo`).

Modelling conventions, chosen to stay byte-for-byte faithful to the source:

* CryptoJS `WordArray`s are modelled as `List Nat` of bytes (the source
  serialises every word array to hex, two hex characters per byte, so the
  byte list determines the hex string and conversely).  All slicing in the
  source happens on hex strings at even offsets, i.e. at byte granularity.
* The CryptoJS primitives the source calls — `HmacSHA256`, `HmacSHA512`,
  `PBKDF2` (SHA-512, keySize 512/32) and `AES` in CTR mode with NoPadding —
  are external library code, not code of this repository.  They are
  abstracted as a structure `CryptoPrims` of functions with their output
  lengths (32, 64, 64 bytes; CTR keystream = data length).  AES-256-CTR with
  NoPadding is exactly "XOR the data with a keystream that is a function of
  key and IV, truncated to the data's length", which is how it is modelled
  (`aesCtrKeystream`); the CTR decryption path of the source performs the
  identical XOR.  Every theorem below is proved for all such primitive
  families, and concrete executable families instantiate the witnesses.
* The outer Base64 armor (`toString(CryptoJS.enc.Base64)` at the end of
  `encrypt`, `CryptoJS.enc.Base64.parse` at the start of `decrypt`) is a
  bijection between byte strings and their Base64 texts; the model works
  directly with the decoded envelope bytes, which is the object the spec's
  length claims are phrased about ("once base64-decoded").
* `CryptoJS.enc.Utf8` parsing/stringifying is standard UTF-8
  encoding/decoding (CryptoJS stringify throws on malformed input, which the
  model renders as `Option.none`).
* The source's `Date.now()` timestamp and the random generation of salts and
  nonces (`WordArray.random`) are the only impure points; the model takes
  the salt and nonce as explicit arguments (the source's `generateSalt` /
  `generateNonce` always produce `saltSize` resp. 12 bytes) and omits the
  timestamp, which no claim mentions.
-/

/-- Big-endian 4-byte encoding of a 32-bit counter/integer.  This is how
CryptoJS serialises the one-word `WordArray.create([i])` used as the ChaCha
counter block, and also the `iterations.toString(16).padStart(8, '0')`
field of the envelope (both write the value's 4 bytes most significant
first, reduced mod 2^32). -/
def encode32 (n : Nat) : List Nat :=
  [n % 4294967296 / 16777216, n % 16777216 / 65536, n % 65536 / 256, n % 256]

/-- JavaScript `parseInt(hexString, 16)` applied to the hex rendering of a
byte list: `NaN` (modelled as `none`) on the empty string, otherwise the
big-endian value of the bytes. -/
def parseIntHex : List Nat → Option Nat
  | [] => none
  | b :: bs => some ((b :: bs).foldl (fun acc x => acc * 256 + x) 0)

/-- The word-wise XOR loop of `chachaLayer`:
`result.words[i] = (data.words[i] || 0) ^ (keystream.words[i] || 0)` with
`result.sigBytes = data.sigBytes`.  At byte granularity: output byte `j`
is `data[j] XOR keystream[j]`, a missing keystream byte reading as 0, and
the output has exactly the data's length. -/
def xorKeystream (data keystream : List Nat) : List Nat :=
  (List.range data.length).map fun j => data.getD j 0 ^^^ keystream.getD j 0

/-- UTF-8 encoding of one scalar value (what
`CryptoJS.enc.Utf8.parse = unescape(encodeURIComponent ·)` produces
per character). -/
def utf8EncodeChar (c : Char) : List Nat :=
  let n := c.toNat
  if n < 128 then [n]
  else if n < 2048 then [192 + n / 64, 128 + n % 64]
  else if n < 65536 then [224 + n / 4096, 128 + n / 64 % 64, 128 + n % 64]
  else [240 + n / 262144, 128 + n / 4096 % 64, 128 + n / 64 % 64, 128 + n % 64]

/-- `CryptoJS.enc.Utf8.parse`: the UTF-8 bytes of a string. -/
def utf8Bytes (s : String) : List Nat :=
  s.data.flatMap utf8EncodeChar

/-- A UTF-8 continuation byte (10xxxxxx). -/
def isUtf8Cont (b : Nat) : Prop :=
  128 ≤ b ∧ b < 192

instance (b : Nat) : Decidable (isUtf8Cont b) :=
  inferInstanceAs (Decidable (_ ∧ _))

/-- One step of strict UTF-8 decoding: from a lead byte `b` and the bytes
after it, the decoded character and how many continuation bytes it
consumed; `none` on a stray continuation byte, a truncated sequence, an
overlong encoding, a surrogate code point or a value beyond U+10FFFF (the
inputs on which `decodeURIComponent` throws `URIError`, surfaced by the
source's catch-all handler). -/
def utf8Step (b : Nat) (rest : List Nat) : Option (Char × Nat) :=
  if b < 128 then some (Char.ofNat b, 0)
  else if b < 192 then none
  else if b < 224 then
    match rest with
    | b1 :: _ =>
      if isUtf8Cont b1 then
        if (b - 192) * 64 + (b1 - 128) < 128 then none
        else some (Char.ofNat ((b - 192) * 64 + (b1 - 128)), 1)
      else none
    | [] => none
  else if b < 240 then
    match rest with
    | b1 :: b2 :: _ =>
      if isUtf8Cont b1 ∧ isUtf8Cont b2 then
        if (b - 224) * 4096 + (b1 - 128) * 64 + (b2 - 128) < 2048 then none
        else if 55296 ≤ (b - 224) * 4096 + (b1 - 128) * 64 + (b2 - 128) ∧
            (b - 224) * 4096 + (b1 - 128) * 64 + (b2 - 128) < 57344 then none
        else some (Char.ofNat ((b - 224) * 4096 + (b1 - 128) * 64 + (b2 - 128)), 2)
      else none
    | _ => none
  else if b < 245 then
    match rest with
    | b1 :: b2 :: b3 :: _ =>
      if isUtf8Cont b1 ∧ isUtf8Cont b2 ∧ isUtf8Cont b3 then
        if (b - 240) * 262144 + (b1 - 128) * 4096 + (b2 - 128) * 64 + (b3 - 128) < 65536 then
          none
        else if 1114112 ≤ (b - 240) * 262144 + (b1 - 128) * 4096 + (b2 - 128) * 64 +
            (b3 - 128) then none
        else
          some (Char.ofNat
            ((b - 240) * 262144 + (b1 - 128) * 4096 + (b2 - 128) * 64 + (b3 - 128)), 3)
      else none
    | _ => none
  else none

/-- UTF-8 decoding loop of `CryptoJS.enc.Utf8.stringify`
(`decodeURIComponent(escape ·)`): repeatedly apply `utf8Step`, skipping
the consumed continuation bytes.  The recursion is driven by a fuel
counter (instantiated with the input's length, which always suffices:
each step consumes at least one byte) so that the definition reduces by
plain structural recursion. -/
def utf8DecodeFuel : Nat → List Nat → Option (List Char)
  | _, [] => some []
  | 0, _ :: _ => none
  | fuel + 1, b :: rest =>
    (utf8Step b rest).bind fun st =>
      (utf8DecodeFuel fuel (rest.drop st.2)).map fun cs => st.1 :: cs

/-- The decoding loop at its canonical fuel. -/
def utf8DecodeLoop (bs : List Nat) : Option (List Char) :=
  utf8DecodeFuel bs.length bs

/-- `CryptoJS.enc.Utf8` stringify: bytes back to a string, `none` on
malformed input. -/
def utf8Decode (bs : List Nat) : Option String :=
  (utf8DecodeLoop bs).map fun cs => String.mk cs

/-- The CryptoJS primitives the source calls, abstracted with their output
lengths.  Argument order follows the source's call sites:
`CryptoJS.HmacSHA256(message, key)`, `CryptoJS.HmacSHA512(message, key)`,
`CryptoJS.PBKDF2(masterKey, salt, {keySize: 512/32, iterations, SHA512})`.
`aesCtrKeystream key iv len` is the first `len` bytes of the CTR keystream
of AES-256 under `key` seeded with `iv` (CryptoJS CTR + NoPadding encrypts
and decrypts by XORing data with exactly this keystream). -/
structure CryptoPrims where
  HmacSHA256 : List Nat → List Nat → List Nat
  HmacSHA512 : List Nat → List Nat → List Nat
  PBKDF2 : String → List Nat → Nat → List Nat
  aesCtrKeystream : List Nat → List Nat → Nat → List Nat
  hmacSHA256_length : ∀ msg key, (HmacSHA256 msg key).length = 32
  hmacSHA512_length : ∀ msg key, (HmacSHA512 msg key).length = 64
  pbkdf2_length : ∀ pw salt iters, (PBKDF2 pw salt iters).length = 64
  aesCtrKeystream_length : ∀ key iv len, (aesCtrKeystream key iv len).length = len

/-- The three sub-keys of `deriveKey`. -/
structure DerivedKeys where
  encryptionKey : List Nat
  authKey : List Nat
  chachaKey : List Nat

/-- `deriveKey(masterKey, salt, iterations)`: PBKDF2-SHA512 derives 64
bytes (`keySize: 512/32` words); the word slices `0..8`, `8..16`, `16..`
are the byte slices `[0,32)`, `[32,64)`, `[64,..)` of the derived
material. -/
def deriveKey (prim : CryptoPrims) (masterKey : String) (salt : List Nat)
    (iterations : Nat) : DerivedKeys :=
  let baseKey := prim.PBKDF2 masterKey salt iterations
  { encryptionKey := baseKey.take 32
    authKey := baseKey.drop 64
    chachaKey := (baseKey.drop 32).take 32 }

/-- The keystream `chachaLayer` accumulates: for each block index
`i < ceil(dataSize/64)` it concatenates the 32-byte
`HmacSHA256(nonce ‖ counter(i), key)` block. -/
def chachaKeystream (prim : CryptoPrims) (key nonce : List Nat) (numBlocks : Nat) :
    List Nat :=
  (List.range numBlocks).flatMap fun i => prim.HmacSHA256 (nonce ++ encode32 i) key

/-- `chachaLayer(data, key, nonce)`: builds the keystream above with
`numBlocks = ceil(data.sigBytes / 64)` and XORs it word-wise into the
data (missing keystream words read as 0), output length = input length. -/
def chachaLayer (prim : CryptoPrims) (data key nonce : List Nat) : List Nat :=
  xorKeystream data (chachaKeystream prim key nonce ((data.length + 63) / 64))

/-- `Math.max(1000, Math.min(100000, params.iterations || 10000))`; the JS
`||` makes an absent *or zero* iterations parameter fall back to 10000. -/
def clampIterations (p : Option Nat) : Nat :=
  max 1000 (min 100000 (match p with
    | none => 10000
    | some n => if n = 0 then 10000 else n))

/-- The `EncryptionResult` of `encrypt`, with `ciphertext` as the decoded
envelope bytes (the source returns their Base64 text) and the `Date.now()`
timestamp omitted. -/
structure EncryptionResult where
  ciphertext : List Nat
  key : String
  salt : List Nat
  iterations : Nat

/-- The ciphertext proper of `encrypt`: Layer 1 (`chachaLayer` under the
chacha sub-key) followed by Layer 2 (AES-256-CTR under the AES sub-key,
IV = nonce, i.e. XOR with the CTR keystream). -/
def cipherOutput (prim : CryptoPrims) (plaintext : String) (masterKey : String)
    (iterationsParam : Option Nat) (salt nonce : List Nat) : List Nat :=
  let keys := deriveKey prim masterKey salt (clampIterations iterationsParam)
  let layer1 := chachaLayer prim (utf8Bytes plaintext) keys.chachaKey nonce
  xorKeystream layer1 (prim.aesCtrKeystream keys.encryptionKey nonce layer1.length)

/-- The authentication tag of `encrypt`:
`HmacSHA512(salt ‖ nonce ‖ ciphertext, authKey)`. -/
def encryptTag (prim : CryptoPrims) (plaintext : String) (masterKey : String)
    (iterationsParam : Option Nat) (salt nonce : List Nat) : List Nat :=
  prim.HmacSHA512 (salt ++ nonce ++ cipherOutput prim plaintext masterKey iterationsParam salt nonce)
    (deriveKey prim masterKey salt (clampIterations iterationsParam)).authKey

/-- `encrypt(plaintext, masterKey, params)`.  The salt (custom hex-decoded
or freshly generated with `saltSize` bytes) and the fresh 12-byte nonce are
passed in explicitly; the master key is the caller's (or the freshly
generated hex key).  Envelope layout:
`[version:1][iterations:4][salt][nonce:12][hmac:64][ciphertext]`. -/
def encrypt (prim : CryptoPrims) (plaintext : String) (masterKey : String)
    (iterationsParam : Option Nat) (salt nonce : List Nat) : EncryptionResult :=
  let iterations := clampIterations iterationsParam
  let hmac := encryptTag prim plaintext masterKey iterationsParam salt nonce
  let layer2 := cipherOutput prim plaintext masterKey iterationsParam salt nonce
  { ciphertext := 1 :: (encode32 iterations ++ salt ++ nonce ++ hmac ++ layer2)
    key := masterKey
    salt := salt
    iterations := iterations }

/-- The decryption error classes the source's `decrypt` can throw, plus the
spec's taxonomy entries.  `unsupportedVersion` is
`Unsupported encryption version`, `authenticationFailed` is
`Authentication failed - data may be corrupted or key is incorrect`,
`malformedUtf8` is the `Malformed UTF-8 data`/`URIError` of Utf8
stringification, `emptyPlaintext` is
`Decryption failed - resulting plaintext is empty`.  `truncated` and
`malformedEncoding` are the spec's §7 `Truncated`/`MalformedEncoding`
classes, which no code path of the source ever throws. -/
inductive DecErr where
  | unsupportedVersion
  | truncated
  | malformedEncoding
  | authenticationFailed
  | malformedUtf8
  | emptyPlaintext
deriving DecidableEq

deriving instance DecidableEq for Except

/-- `decrypt`'s version field: `parseInt(packageHex.substring(0, 2), 16)`,
i.e. hex offsets [0,2) = byte 0. -/
def parsedVersion (pkg : List Nat) : Option Nat :=
  parseIntHex (pkg.take 1)

/-- `decrypt`'s iterations field: hex offsets [2,10) = bytes [1,5). -/
def parsedIterations (pkg : List Nat) : Option Nat :=
  parseIntHex ((pkg.drop 1).take 4)

/-- `decrypt`'s salt field: hex offsets [10,74) = bytes [5,37). -/
def parsedSalt (pkg : List Nat) : List Nat :=
  (pkg.drop 5).take 32

/-- `decrypt`'s nonce field: hex offsets [74,98) = bytes [37,49). -/
def parsedNonce (pkg : List Nat) : List Nat :=
  (pkg.drop 37).take 12

/-- `decrypt`'s stored HMAC field: hex offsets [98,226) = bytes [49,113). -/
def parsedTag (pkg : List Nat) : List Nat :=
  (pkg.drop 49).take 64

/-- `decrypt`'s ciphertext field: the remainder from hex offset 226 =
byte 113. -/
def parsedCiphertext (pkg : List Nat) : List Nat :=
  pkg.drop 113

/-- The HMAC `decrypt` recomputes over the parsed fields:
`HmacSHA512(salt ‖ nonce ‖ ciphertext, authKey)` with the keys re-derived
from the supplied master key and the parsed salt/iterations (a `NaN`
iterations field behaves in CryptoJS's PBKDF2 loop exactly like 0, which
`getD 0` renders). -/
def decryptComputedTag (prim : CryptoPrims) (pkg : List Nat) (key : String) : List Nat :=
  let keys := deriveKey prim key (parsedSalt pkg) ((parsedIterations pkg).getD 0)
  prim.HmacSHA512 (parsedSalt pkg ++ parsedNonce pkg ++ parsedCiphertext pkg) keys.authKey

/-- The tail of `decrypt`: `plaintext.toString(CryptoJS.enc.Utf8)` (throws
`URIError`/`Malformed UTF-8 data` on undecodable bytes) followed by the
`if (!result) throw` empty-plaintext check. -/
def finalizePlaintext (r : Option String) : Except DecErr String :=
  match r with
  | none => .error .malformedUtf8
  | some s => if s = "" then .error .emptyPlaintext else .ok s

/-- `decrypt(params)` on the decoded envelope bytes.  Mirrors the source's
order: version gate, field parsing at fixed hex offsets, key re-derivation,
HMAC comparison (hex-string equality of the two word arrays = byte-list
equality), AES-CTR inversion, chacha layer inversion, UTF-8 stringify,
empty-result check. -/
def decrypt (prim : CryptoPrims) (pkg : List Nat) (key : String) : Except DecErr String :=
  if parsedVersion pkg ≠ some 1 then .error .unsupportedVersion
  else
    let iterations := (parsedIterations pkg).getD 0
    let salt := parsedSalt pkg
    let nonce := parsedNonce pkg
    let ct := parsedCiphertext pkg
    let keys := deriveKey prim key salt iterations
    if decryptComputedTag prim pkg key ≠ parsedTag pkg then .error .authenticationFailed
    else
      let layer1 := xorKeystream ct (prim.aesCtrKeystream keys.encryptionKey nonce ct.length)
      let plaintextBytes := chachaLayer prim layer1 keys.chachaKey nonce
      finalizePlaintext (utf8Decode plaintextBytes)

/-- The record `getEncryptionInfo` returns; `ciphertextSize` is
`(packageHex.length - 226) / 2` computed in JS number arithmetic, which is
exact integer arithmetic here (`packageHex.length = 2 * pkg.length`), so it
is modelled over `Int`. -/
structure EncryptionInfo where
  version : Option Nat
  iterations : Option Nat
  saltSize : Nat
  ciphertextSize : Int

/-- `getEncryptionInfo(ciphertext)`: header introspection without
decryption. -/
def getEncryptionInfo (pkg : List Nat) : EncryptionInfo :=
  { version := parseIntHex (pkg.take 1)
    iterations := parseIntHex ((pkg.drop 1).take 4)
    saltSize := 32
    ciphertextSize := (2 * (pkg.length : Int) - 226) / 2 }

/-- Modelled from the spec (§4.2, claim C5's reading of the stream layer):
partition the data into 64-byte blocks; block `i` is XORed with the single
keystream block `HmacSHA256(nonce ‖ counter(i), key)` adjusted (truncated,
or zero-extended — missing bytes XOR as 0) to cover exactly that block's
length.  This is the per-block transform the claim asserts `chachaLayer`
implements; it is compared against the actual `chachaLayer` above.  (Under
the alternative "repeat the hash block to fill 64 bytes" reading the two
also differ, at the same inputs.) -/
def specStreamTransform (prim : CryptoPrims) (data key nonce : List Nat) : List Nat :=
  (List.range ((data.length + 63) / 64)).flatMap fun i =>
    xorKeystream ((data.drop (64 * i)).take 64) (prim.HmacSHA256 (nonce ++ encode32 i) key)

/-- A concrete primitive family (all outputs zero) used to evaluate the
model at concrete inputs. -/
def zeroPrims : CryptoPrims where
  HmacSHA256 := fun _ _ => List.replicate 32 0
  HmacSHA512 := fun _ _ => List.replicate 64 0
  PBKDF2 := fun _ _ _ => List.replicate 64 0
  aesCtrKeystream := fun _ _ len => List.replicate len 0
  hmacSHA256_length := fun _ _ => List.length_replicate 32 0
  hmacSHA512_length := fun _ _ => List.length_replicate 64 0
  pbkdf2_length := fun _ _ _ => List.length_replicate 64 0
  aesCtrKeystream_length := fun _ _ len => List.length_replicate len 0

/-- A concrete primitive family whose HMAC-SHA256 output depends on the
message (each output byte is the byte-sum of the message, mod 256), so the
counter value fed to each keystream block is observable. -/
def sumPrims : CryptoPrims where
  HmacSHA256 := fun msg _ => List.replicate 32 (msg.foldl (· + ·) 0 % 256)
  HmacSHA512 := fun _ _ => List.replicate 64 0
  PBKDF2 := fun _ _ _ => List.replicate 64 0
  aesCtrKeystream := fun _ _ len => List.replicate len 0
  hmacSHA256_length := fun msg _ => List.length_replicate 32 (msg.foldl (· + ·) 0 % 256)
  hmacSHA512_length := fun _ _ => List.length_replicate 64 0
  pbkdf2_length := fun _ _ _ => List.length_replicate 64 0
  aesCtrKeystream_length := fun _ _ len => List.length_replicate len 0

/-! ## Basic lemmas about the byte-level helpers -/

lemma take_append_of_length {a b : List Nat} {n : Nat} (h : a.length = n) :
    (a ++ b).take n = a := by
  subst h; exact List.take_left a b

lemma drop_append_of_length {a b : List Nat} {n : Nat} (h : a.length = n) :
    (a ++ b).drop n = b := by
  subst h; exact List.drop_left a b

lemma encode32_length (n : Nat) : (encode32 n).length = 4 := rfl

lemma parseIntHex_encode32 {n : Nat} (h : n < 4294967296) :
    parseIntHex (encode32 n) = some n := by
  simp only [encode32, parseIntHex, List.foldl_cons, List.foldl_nil]
  congr 1
  omega

lemma parsedVersion_cons (x : Nat) (rest : List Nat) :
    parsedVersion (x :: rest) = some x := by
  simp [parsedVersion, parseIntHex]

lemma parsedVersion_eq_head (pkg : List Nat) : parsedVersion pkg = pkg.head? := by
  cases pkg with
  | nil => rfl
  | cons x rest => rw [parsedVersion_cons]; rfl

lemma xorKeystream_length (data ks : List Nat) :
    (xorKeystream data ks).length = data.length := by
  simp [xorKeystream]

lemma xorKeystream_getD {data : List Nat} (ks : List Nat) {j : Nat} (hj : j < data.length) :
    (xorKeystream data ks).getD j 0 = data.getD j 0 ^^^ ks.getD j 0 := by
  unfold xorKeystream
  rw [List.getD_eq_getElem?_getD]
  simp [List.getElem?_eq_getElem, hj]

lemma xorKeystream_getElem {data : List Nat} (ks : List Nat) {j : Nat}
    (hj : j < (xorKeystream data ks).length) :
    (xorKeystream data ks)[j] = data.getD j 0 ^^^ ks.getD j 0 := by
  unfold xorKeystream at hj ⊢
  simp at hj
  simp [hj]

lemma xorKeystream_involution (data ks : List Nat) :
    xorKeystream (xorKeystream data ks) ks = data := by
  apply List.ext_getElem
  · simp [xorKeystream_length]
  · intro j h1 h2
    rw [xorKeystream_getElem ks h1]
    rw [xorKeystream_getD ks (by simpa [xorKeystream_length] using h2)]
    rw [Nat.xor_cancel_right]
    exact List.getD_eq_getElem data 0 h2

lemma chachaKeystream_length (prim : CryptoPrims) (key nonce : List Nat) (n : Nat) :
    (chachaKeystream prim key nonce n).length = 32 * n := by
  induction n with
  | zero => simp [chachaKeystream]
  | succ m ih =>
    unfold chachaKeystream at ih ⊢
    rw [List.range_succ]
    simp only [List.flatMap_append, List.length_append, ih]
    simp [prim.hmacSHA256_length]
    omega

lemma chachaKeystream_getD (prim : CryptoPrims) (key nonce : List Nat) {n j : Nat}
    (hj : j < 32 * n) :
    (chachaKeystream prim key nonce n).getD j 0 =
      (prim.HmacSHA256 (nonce ++ encode32 (j / 32)) key).getD (j % 32) 0 := by
  induction n with
  | zero => omega
  | succ m ih =>
    unfold chachaKeystream at ih ⊢
    rw [List.range_succ, List.flatMap_append]
    by_cases hcase : j < 32 * m
    · rw [List.getD_append]
      · exact ih hcase
      · rw [show ((List.range m).flatMap fun i =>
            prim.HmacSHA256 (nonce ++ encode32 i) key) = chachaKeystream prim key nonce m from rfl,
          chachaKeystream_length]
        exact hcase
    · have hlen : ((List.range m).flatMap fun i =>
          prim.HmacSHA256 (nonce ++ encode32 i) key).length = 32 * m := by
        rw [show ((List.range m).flatMap fun i =>
            prim.HmacSHA256 (nonce ++ encode32 i) key) = chachaKeystream prim key nonce m from rfl,
          chachaKeystream_length]
      rw [List.getD_append_right]
      · rw [hlen]
        have hdiv : j / 32 = m := by omega
        have hmod : j % 32 = j - 32 * m := by omega
        rw [hdiv, hmod]
        simp
      · omega

lemma chachaKeystream_getD_high (prim : CryptoPrims) (key nonce : List Nat) {n j : Nat}
    (hj : 32 * n ≤ j) :
    (chachaKeystream prim key nonce n).getD j 0 = 0 := by
  apply List.getD_eq_default
  rw [chachaKeystream_length]
  exact hj

lemma chachaLayer_length (prim : CryptoPrims) (data key nonce : List Nat) :
    (chachaLayer prim data key nonce).length = data.length := by
  simp [chachaLayer, xorKeystream_length]

lemma chachaLayer_involution (prim : CryptoPrims) (data key nonce : List Nat) :
    chachaLayer prim (chachaLayer prim data key nonce) key nonce = data := by
  unfold chachaLayer
  rw [xorKeystream_length]
  exact xorKeystream_involution _ _

lemma deriveKey_authKey (prim : CryptoPrims) (masterKey : String) (salt : List Nat)
    (iterations : Nat) : (deriveKey prim masterKey salt iterations).authKey = [] := by
  unfold deriveKey
  simp only
  rw [List.drop_eq_nil_iff]
  rw [prim.pbkdf2_length]

lemma deriveKey_encryptionKey_length (prim : CryptoPrims) (masterKey : String)
    (salt : List Nat) (iterations : Nat) :
    (deriveKey prim masterKey salt iterations).encryptionKey.length = 32 := by
  unfold deriveKey
  simp [prim.pbkdf2_length]

lemma deriveKey_chachaKey_length (prim : CryptoPrims) (masterKey : String)
    (salt : List Nat) (iterations : Nat) :
    (deriveKey prim masterKey salt iterations).chachaKey.length = 32 := by
  unfold deriveKey
  simp [prim.pbkdf2_length]

lemma clampIterations_lt (p : Option Nat) : clampIterations p < 4294967296 := by
  have : clampIterations p ≤ 100000 := by
    unfold clampIterations
    cases p with
    | none => omega
    | some n =>
      simp only
      split <;> omega
  omega


/-! ## UTF-8: decoding inverts encoding -/

lemma char_valid_ranges (c : Char) :
    c.toNat < 55296 ∨ (57343 < c.toNat ∧ c.toNat < 1114112) := c.valid

lemma utf8Step_encodeChar (c : Char) (rest : List Nat) :
    utf8Step ((utf8EncodeChar c).headD 0) ((utf8EncodeChar c).tail ++ rest) =
      some (c, (utf8EncodeChar c).tail.length) := by
  have hv := char_valid_ranges c
  by_cases h1 : c.toNat < 128
  · have henc : utf8EncodeChar c = [c.toNat] := by
      unfold utf8EncodeChar; rw [if_pos h1]
    rw [henc]
    unfold utf8Step
    simp only [List.headD, List.tail, List.nil_append, List.length_nil]
    rw [if_pos h1, Char.ofNat_toNat]
  · by_cases h2 : c.toNat < 2048
    · have henc : utf8EncodeChar c = [192 + c.toNat / 64, 128 + c.toNat % 64] := by
        unfold utf8EncodeChar; rw [if_neg h1, if_pos h2]
      have e1 : ¬(192 + c.toNat / 64 < 128) := by omega
      have e2 : ¬(192 + c.toNat / 64 < 192) := by omega
      have e3 : 192 + c.toNat / 64 < 224 := by omega
      have e4 : isUtf8Cont (128 + c.toNat % 64) := ⟨by omega, by omega⟩
      have e5 : (192 + c.toNat / 64 - 192) * 64 + (128 + c.toNat % 64 - 128) = c.toNat := by
        omega
      rw [henc]
      unfold utf8Step
      simp only [List.headD, List.tail, List.cons_append, List.length_cons, List.length_nil]
      simp only [e1, e2, e3, e4, e5, if_true, if_false, ite_true, ite_false]
      rw [if_neg h1, Char.ofNat_toNat]
    · by_cases h3 : c.toNat < 65536
      · have henc : utf8EncodeChar c =
            [224 + c.toNat / 4096, 128 + c.toNat / 64 % 64, 128 + c.toNat % 64] := by
          unfold utf8EncodeChar; rw [if_neg h1, if_neg h2, if_pos h3]
        have e1 : ¬(224 + c.toNat / 4096 < 128) := by omega
        have e2 : ¬(224 + c.toNat / 4096 < 192) := by omega
        have e3 : ¬(224 + c.toNat / 4096 < 224) := by omega
        have e4 : 224 + c.toNat / 4096 < 240 := by omega
        have e5 : isUtf8Cont (128 + c.toNat / 64 % 64) ∧ isUtf8Cont (128 + c.toNat % 64) :=
          ⟨⟨by omega, by omega⟩, ⟨by omega, by omega⟩⟩
        have e6 : (224 + c.toNat / 4096 - 224) * 4096 + (128 + c.toNat / 64 % 64 - 128) * 64 +
            (128 + c.toNat % 64 - 128) = c.toNat := by omega
        have e7 : ¬(c.toNat < 2048) := h2
        have e8 : ¬(55296 ≤ c.toNat ∧ c.toNat < 57344) := by
          rcases hv with h | ⟨h, _⟩ <;> omega
        rw [henc]
        unfold utf8Step
        simp only [List.headD, List.tail, List.cons_append, List.length_cons, List.length_nil]
        simp only [e1, e2, e3, e4, e5, e6, e7, e8, if_true, if_false, ite_true, ite_false]
        simp
      · have h4 : c.toNat < 1114112 := by rcases hv with h | ⟨_, h⟩ <;> omega
        have henc : utf8EncodeChar c =
            [240 + c.toNat / 262144, 128 + c.toNat / 4096 % 64, 128 + c.toNat / 64 % 64,
              128 + c.toNat % 64] := by
          unfold utf8EncodeChar; rw [if_neg h1, if_neg h2, if_neg h3]
        have e1 : ¬(240 + c.toNat / 262144 < 128) := by omega
        have e2 : ¬(240 + c.toNat / 262144 < 192) := by omega
        have e3 : ¬(240 + c.toNat / 262144 < 224) := by omega
        have e4 : ¬(240 + c.toNat / 262144 < 240) := by omega
        have e5 : 240 + c.toNat / 262144 < 245 := by omega
        have e6 : isUtf8Cont (128 + c.toNat / 4096 % 64) ∧
            isUtf8Cont (128 + c.toNat / 64 % 64) ∧ isUtf8Cont (128 + c.toNat % 64) :=
          ⟨⟨by omega, by omega⟩, ⟨by omega, by omega⟩, ⟨by omega, by omega⟩⟩
        have e7 : (240 + c.toNat / 262144 - 240) * 262144 +
            (128 + c.toNat / 4096 % 64 - 128) * 4096 + (128 + c.toNat / 64 % 64 - 128) * 64 +
            (128 + c.toNat % 64 - 128) = c.toNat := by omega
        have e8 : ¬(c.toNat < 65536) := h3
        have e9 : ¬(1114112 ≤ c.toNat) := by omega
        rw [henc]
        unfold utf8Step
        simp only [List.headD, List.tail, List.cons_append, List.length_cons, List.length_nil]
        simp only [e1, e2, e3, e4, e5, e6, e7, e8, e9, if_true, if_false, ite_true, ite_false]
        simp

lemma utf8EncodeChar_cons (c : Char) :
    utf8EncodeChar c = (utf8EncodeChar c).headD 0 :: (utf8EncodeChar c).tail := by
  have hne : utf8EncodeChar c ≠ [] := by
    simp only [utf8EncodeChar]
    split
    · simp
    · split
      · simp
      · split <;> simp
  cases h : utf8EncodeChar c with
  | nil => exact absurd h hne
  | cons a l => rfl

lemma utf8DecodeFuel_nil (fuel : Nat) : utf8DecodeFuel fuel [] = some [] := by
  cases fuel <;> rfl

lemma utf8DecodeFuel_congr :
    ∀ (fuel fuel' : Nat) (l : List Nat), l.length ≤ fuel → l.length ≤ fuel' →
      utf8DecodeFuel fuel l = utf8DecodeFuel fuel' l := by
  intro fuel
  induction fuel with
  | zero =>
    intro fuel' l h h'
    have : l = [] := List.length_eq_zero.mp (Nat.le_zero.mp h)
    subst this
    rw [utf8DecodeFuel_nil, utf8DecodeFuel_nil]
  | succ f ih =>
    intro fuel' l h h'
    cases l with
    | nil => rw [utf8DecodeFuel_nil, utf8DecodeFuel_nil]
    | cons b rest =>
      cases fuel' with
      | zero => simp at h'
      | succ f' =>
        show (utf8Step b rest).bind _ = (utf8Step b rest).bind _
        cases hstep : utf8Step b rest with
        | none => rfl
        | some st =>
          simp only [Option.some_bind]
          rw [ih f' (rest.drop st.2)
            (by simp only [List.length_drop]; simp at h; omega)
            (by simp only [List.length_drop]; simp at h'; omega)]

lemma utf8DecodeLoop_encodeChar (c : Char) (rest : List Nat) :
    utf8DecodeLoop (utf8EncodeChar c ++ rest) =
      (utf8DecodeLoop rest).map fun cs => c :: cs := by
  unfold utf8DecodeLoop
  conv_lhs => rw [utf8EncodeChar_cons c, List.cons_append, List.length_cons]
  show ((utf8Step ((utf8EncodeChar c).headD 0) ((utf8EncodeChar c).tail ++ rest)).bind fun st =>
    (utf8DecodeFuel ((utf8EncodeChar c).tail ++ rest).length
      (((utf8EncodeChar c).tail ++ rest).drop st.2)).map fun cs => st.1 :: cs) = _
  rw [utf8Step_encodeChar c rest]
  simp only [Option.some_bind]
  rw [List.drop_left]
  rw [utf8DecodeFuel_congr _ rest.length rest (by simp) (le_refl _)]

lemma utf8DecodeLoop_flatMap (cs : List Char) :
    utf8DecodeLoop (cs.flatMap utf8EncodeChar) = some cs := by
  induction cs with
  | nil => rfl
  | cons c cs ih =>
    rw [List.flatMap_cons, utf8DecodeLoop_encodeChar, ih]
    rfl

lemma utf8Decode_utf8Bytes (s : String) : utf8Decode (utf8Bytes s) = some s := by
  unfold utf8Decode utf8Bytes
  rw [utf8DecodeLoop_flatMap]
  rfl

/-! ## Parsing the envelope `encrypt` builds -/

lemma cipherOutput_length (prim : CryptoPrims) (plaintext masterKey : String)
    (iterP : Option Nat) (salt nonce : List Nat) :
    (cipherOutput prim plaintext masterKey iterP salt nonce).length =
      (utf8Bytes plaintext).length := by
  simp [cipherOutput, xorKeystream_length, chachaLayer_length]

lemma encryptTag_length (prim : CryptoPrims) (plaintext masterKey : String)
    (iterP : Option Nat) (salt nonce : List Nat) :
    (encryptTag prim plaintext masterKey iterP salt nonce).length = 64 := by
  unfold encryptTag
  rw [prim.hmacSHA512_length]

lemma encrypt_ciphertext_eq (prim : CryptoPrims) (plaintext masterKey : String)
    (iterP : Option Nat) (salt nonce : List Nat) :
    (encrypt prim plaintext masterKey iterP salt nonce).ciphertext =
      (1 :: encode32 (clampIterations iterP)) ++
        (salt ++ (nonce ++ (encryptTag prim plaintext masterKey iterP salt nonce ++
          cipherOutput prim plaintext masterKey iterP salt nonce))) := by
  simp [encrypt, List.cons_append, List.append_assoc]

lemma encrypt_ciphertext_length (prim : CryptoPrims) (plaintext masterKey : String)
    (iterP : Option Nat) (salt nonce : List Nat) :
    (encrypt prim plaintext masterKey iterP salt nonce).ciphertext.length =
      69 + salt.length + nonce.length + (utf8Bytes plaintext).length := by
  rw [encrypt_ciphertext_eq]
  simp [encode32, encryptTag_length, cipherOutput_length, List.length_append, List.length_cons]
  omega

lemma encrypt_parsedVersion (prim : CryptoPrims) (plaintext masterKey : String)
    (iterP : Option Nat) (salt nonce : List Nat) :
    parsedVersion (encrypt prim plaintext masterKey iterP salt nonce).ciphertext = some 1 := by
  rw [encrypt_ciphertext_eq, List.cons_append, parsedVersion_cons]

lemma encrypt_parsedIterations (prim : CryptoPrims) (plaintext masterKey : String)
    (iterP : Option Nat) (salt nonce : List Nat) :
    parsedIterations (encrypt prim plaintext masterKey iterP salt nonce).ciphertext =
      some (clampIterations iterP) := by
  rw [encrypt_ciphertext_eq]
  unfold parsedIterations
  rw [show (1 :: encode32 (clampIterations iterP)) = [1] ++ encode32 (clampIterations iterP)
    from rfl]
  rw [List.append_assoc]
  rw [drop_append_of_length (show ([1] : List Nat).length = 1 from rfl)]
  rw [take_append_of_length (encode32_length _)]
  exact parseIntHex_encode32 (clampIterations_lt iterP)

lemma encrypt_drop5 (prim : CryptoPrims) (plaintext masterKey : String)
    (iterP : Option Nat) (salt nonce : List Nat) :
    (encrypt prim plaintext masterKey iterP salt nonce).ciphertext.drop 5 =
      salt ++ (nonce ++ (encryptTag prim plaintext masterKey iterP salt nonce ++
        cipherOutput prim plaintext masterKey iterP salt nonce)) := by
  rw [encrypt_ciphertext_eq]
  exact drop_append_of_length (by simp [encode32])

lemma encrypt_parsedSalt (prim : CryptoPrims) (plaintext masterKey : String)
    (iterP : Option Nat) (salt nonce : List Nat) (hs : salt.length = 32) :
    parsedSalt (encrypt prim plaintext masterKey iterP salt nonce).ciphertext = salt := by
  unfold parsedSalt
  rw [encrypt_drop5]
  exact take_append_of_length hs

lemma encrypt_drop37 (prim : CryptoPrims) (plaintext masterKey : String)
    (iterP : Option Nat) (salt nonce : List Nat) (hs : salt.length = 32) :
    (encrypt prim plaintext masterKey iterP salt nonce).ciphertext.drop 37 =
      nonce ++ (encryptTag prim plaintext masterKey iterP salt nonce ++
        cipherOutput prim plaintext masterKey iterP salt nonce) := by
  rw [show (37 : Nat) = 5 + 32 from rfl, ← List.drop_drop, encrypt_drop5]
  exact drop_append_of_length hs

lemma encrypt_parsedNonce (prim : CryptoPrims) (plaintext masterKey : String)
    (iterP : Option Nat) (salt nonce : List Nat) (hs : salt.length = 32)
    (hn : nonce.length = 12) :
    parsedNonce (encrypt prim plaintext masterKey iterP salt nonce).ciphertext = nonce := by
  unfold parsedNonce
  rw [encrypt_drop37 prim plaintext masterKey iterP salt nonce hs]
  exact take_append_of_length hn

lemma encrypt_drop49 (prim : CryptoPrims) (plaintext masterKey : String)
    (iterP : Option Nat) (salt nonce : List Nat) (hs : salt.length = 32)
    (hn : nonce.length = 12) :
    (encrypt prim plaintext masterKey iterP salt nonce).ciphertext.drop 49 =
      encryptTag prim plaintext masterKey iterP salt nonce ++
        cipherOutput prim plaintext masterKey iterP salt nonce := by
  rw [show (49 : Nat) = 37 + 12 from rfl, ← List.drop_drop,
    encrypt_drop37 prim plaintext masterKey iterP salt nonce hs]
  exact drop_append_of_length hn

lemma encrypt_parsedTag (prim : CryptoPrims) (plaintext masterKey : String)
    (iterP : Option Nat) (salt nonce : List Nat) (hs : salt.length = 32)
    (hn : nonce.length = 12) :
    parsedTag (encrypt prim plaintext masterKey iterP salt nonce).ciphertext =
      encryptTag prim plaintext masterKey iterP salt nonce := by
  unfold parsedTag
  rw [encrypt_drop49 prim plaintext masterKey iterP salt nonce hs hn]
  exact take_append_of_length (encryptTag_length prim plaintext masterKey iterP salt nonce)

lemma encrypt_parsedCiphertext (prim : CryptoPrims) (plaintext masterKey : String)
    (iterP : Option Nat) (salt nonce : List Nat) (hs : salt.length = 32)
    (hn : nonce.length = 12) :
    parsedCiphertext (encrypt prim plaintext masterKey iterP salt nonce).ciphertext =
      cipherOutput prim plaintext masterKey iterP salt nonce := by
  unfold parsedCiphertext
  rw [show (113 : Nat) = 49 + 64 from rfl, ← List.drop_drop,
    encrypt_drop49 prim plaintext masterKey iterP salt nonce hs hn]
  exact drop_append_of_length (encryptTag_length prim plaintext masterKey iterP salt nonce)

/-! ## The decryption pipeline: characterisations -/

lemma finalizePlaintext_ne_authFailed (r : Option String) :
    finalizePlaintext r ≠ .error .authenticationFailed := by
  cases r with
  | none => simp [finalizePlaintext]
  | some s =>
    simp only [finalizePlaintext]
    split <;> simp

lemma finalizePlaintext_ok {r : Option String} {s : String}
    (h : finalizePlaintext r = .ok s) : s ≠ "" := by
  unfold finalizePlaintext at h
  cases r with
  | none => simp at h
  | some s' =>
    simp only at h
    split at h
    · simp at h
    · rename_i hne
      rw [Except.ok.injEq] at h
      subst h
      exact hne

lemma decryptComputedTag_length (prim : CryptoPrims) (pkg : List Nat) (key : String) :
    (decryptComputedTag prim pkg key).length = 64 := by
  simp [decryptComputedTag, prim.hmacSHA512_length]

lemma decryptComputedTag_key_irrel (prim : CryptoPrims) (pkg : List Nat) (k1 k2 : String) :
    decryptComputedTag prim pkg k1 = decryptComputedTag prim pkg k2 := by
  simp only [decryptComputedTag]
  rw [deriveKey_authKey, deriveKey_authKey]

lemma decrypt_eq_authFailed_iff (prim : CryptoPrims) (pkg : List Nat) (key : String) :
    decrypt prim pkg key = .error .authenticationFailed ↔
      (parsedVersion pkg = some 1 ∧ decryptComputedTag prim pkg key ≠ parsedTag pkg) := by
  simp only [decrypt]
  by_cases hv : parsedVersion pkg = some 1
  · rw [if_neg (by simp [hv])]
    by_cases ht : decryptComputedTag prim pkg key = parsedTag pkg
    · rw [if_neg (not_not_intro ht)]
      simp [hv, ht, finalizePlaintext_ne_authFailed]
    · rw [if_pos ht]
      simp [hv, ht]
  · rw [if_pos (by simp [hv])]
    simp [hv]

lemma decrypt_ok_imp {prim : CryptoPrims} {pkg : List Nat} {key : String} {s : String}
    (h : decrypt prim pkg key = .ok s) : s ≠ "" := by
  simp only [decrypt] at h
  split at h
  · simp at h
  · split at h
    · simp at h
    · exact finalizePlaintext_ok h

lemma decryptComputedTag_encrypt (prim : CryptoPrims) (plaintext masterKey key2 : String)
    (iterP : Option Nat) (salt nonce : List Nat) (hs : salt.length = 32)
    (hn : nonce.length = 12) :
    decryptComputedTag prim (encrypt prim plaintext masterKey iterP salt nonce).ciphertext key2 =
      encryptTag prim plaintext masterKey iterP salt nonce := by
  simp only [decryptComputedTag]
  rw [encrypt_parsedSalt prim plaintext masterKey iterP salt nonce hs,
    encrypt_parsedNonce prim plaintext masterKey iterP salt nonce hs hn,
    encrypt_parsedCiphertext prim plaintext masterKey iterP salt nonce hs hn,
    deriveKey_authKey]
  unfold encryptTag
  rw [deriveKey_authKey]

lemma decrypt_encrypt_same_key (prim : CryptoPrims) (plaintext masterKey : String)
    (iterP : Option Nat) (salt nonce : List Nat) (hs : salt.length = 32)
    (hn : nonce.length = 12) :
    decrypt prim (encrypt prim plaintext masterKey iterP salt nonce).ciphertext masterKey =
      if plaintext = "" then .error .emptyPlaintext else .ok plaintext := by
  have hver := encrypt_parsedVersion prim plaintext masterKey iterP salt nonce
  have htag : decryptComputedTag prim
      (encrypt prim plaintext masterKey iterP salt nonce).ciphertext masterKey =
      parsedTag (encrypt prim plaintext masterKey iterP salt nonce).ciphertext := by
    rw [decryptComputedTag_encrypt prim plaintext masterKey masterKey iterP salt nonce hs hn,
      encrypt_parsedTag prim plaintext masterKey iterP salt nonce hs hn]
  simp only [decrypt]
  rw [if_neg (by simp [hver])]
  rw [if_neg (not_not_intro htag)]
  rw [encrypt_parsedCiphertext prim plaintext masterKey iterP salt nonce hs hn,
    encrypt_parsedNonce prim plaintext masterKey iterP salt nonce hs hn,
    encrypt_parsedSalt prim plaintext masterKey iterP salt nonce hs,
    encrypt_parsedIterations prim plaintext masterKey iterP salt nonce]
  simp only [Option.getD_some]
  conv_lhs =>
    rw [show cipherOutput prim plaintext masterKey iterP salt nonce =
      xorKeystream
        (chachaLayer prim (utf8Bytes plaintext)
          (deriveKey prim masterKey salt (clampIterations iterP)).chachaKey nonce)
        (prim.aesCtrKeystream
          (deriveKey prim masterKey salt (clampIterations iterP)).encryptionKey nonce
          (chachaLayer prim (utf8Bytes plaintext)
            (deriveKey prim masterKey salt (clampIterations iterP)).chachaKey nonce).length)
      from rfl]
    rw [xorKeystream_length]
    rw [xorKeystream_involution]
    rw [chachaLayer_involution]
  rw [utf8Decode_utf8Bytes]
  simp only [finalizePlaintext]

/-! ## The claims -/

/-- C1 (amended): for every plaintext whose recovered value is non-empty
(`plaintext ≠ ""`), every master key, every 32-byte salt (the default and
only envelope-compatible size) and every 12-byte nonce, decrypting the
envelope produced by `encrypt` with the same master key returns exactly
the plaintext — including multi-block plaintexts of 10 KB or more.  For
the empty string the round trip fails: `decrypt` recovers the empty
plaintext and then rejects it (see the counterexample). -/
theorem c1_round_trip (prim : CryptoPrims) (plaintext masterKey : String)
    (iterP : Option Nat) (salt nonce : List Nat) (hs : salt.length = 32)
    (hn : nonce.length = 12) (hne : plaintext ≠ "") :
    decrypt prim (encrypt prim plaintext masterKey iterP salt nonce).ciphertext masterKey =
      .ok plaintext := by
  rw [decrypt_encrypt_same_key prim plaintext masterKey iterP salt nonce hs hn]
  rw [if_neg hne]

/-- C1 witness: a concrete round trip under a concrete primitive family. -/
theorem c1_round_trip_witness :
    decrypt zeroPrims
      (encrypt zeroPrims "hi" "key" none (List.replicate 32 0) (List.replicate 12 0)).ciphertext
      "key" = .ok "hi" :=
  c1_round_trip zeroPrims "hi" "key" none (List.replicate 32 0) (List.replicate 12 0)
    (by decide) (by decide) (by decide)

/-- C1 counterexample: the claim includes the empty string, but decrypting
the envelope of `encrypt("", K)` with the same key K raises the
empty-plaintext error (`Decryption failed - resulting plaintext is empty`)
instead of returning `""`. -/
theorem c1_empty_counterexample :
    decrypt zeroPrims
      (encrypt zeroPrims "" "k" none (List.replicate 32 0) (List.replicate 12 0)).ciphertext
      "k" = .error .emptyPlaintext ∧
    decrypt zeroPrims
      (encrypt zeroPrims "" "k" none (List.replicate 32 0) (List.replicate 12 0)).ciphertext
      "k" ≠ .ok "" :=
  ⟨by decide, by decide⟩

/-- C2: decrypting an envelope produced by `encrypt` under any master key
K1 with any master key K2 — in particular the spec's scenario, master key
`"test-key"` and wrong key `"wrong-key"` — can never raise
`AuthenticationFailed`: the recomputed tag uses the derived `authKey`,
which is empty for every master key, so the tag comparison succeeds for
any well-formed envelope regardless of the key supplied. -/
theorem c2_wrong_key_no_auth_failure (prim : CryptoPrims) (plaintext k1 k2 : String)
    (iterP : Option Nat) (salt nonce : List Nat) (hs : salt.length = 32)
    (hn : nonce.length = 12) :
    decrypt prim (encrypt prim plaintext k1 iterP salt nonce).ciphertext k2 ≠
      .error .authenticationFailed := by
  intro h
  rw [decrypt_eq_authFailed_iff] at h
  obtain ⟨-, hne⟩ := h
  exact hne (by
    rw [decryptComputedTag_encrypt prim plaintext k1 k2 iterP salt nonce hs hn,
      encrypt_parsedTag prim plaintext k1 iterP salt nonce hs hn])

/-- C2 witness: the spec's concrete scenario (plaintext `"hello world"`,
iterations 1000, all-zero 32-byte salt, master key `"test-key"`, wrong key
`"wrong-key"`) does not produce `AuthenticationFailed`. -/
theorem c2_wrong_key_witness :
    decrypt zeroPrims
      (encrypt zeroPrims "hello world" "test-key" (some 1000) (List.replicate 32 0)
        (List.replicate 12 0)).ciphertext "wrong-key" ≠ .error .authenticationFailed :=
  c2_wrong_key_no_auth_failure zeroPrims "hello world" "test-key" "wrong-key" (some 1000)
    (List.replicate 32 0) (List.replicate 12 0) (by decide) (by decide)

/-- C3: the authentication tag `decrypt` recomputes is the same under any
two master keys (the derived `authKey` is always the empty byte string),
so the tag verification outcome is independent of the master key
supplied. -/
theorem c3_tag_key_independent (prim : CryptoPrims) (pkg : List Nat) (k1 k2 : String) :
    decryptComputedTag prim pkg k1 = decryptComputedTag prim pkg k2 ∧
    (decrypt prim pkg k1 = .error .authenticationFailed ↔
      decrypt prim pkg k2 = .error .authenticationFailed) := by
  refine ⟨decryptComputedTag_key_irrel prim pkg k1 k2, ?_⟩
  rw [decrypt_eq_authFailed_iff, decrypt_eq_authFailed_iff,
    decryptComputedTag_key_irrel prim pkg k1 k2]

/-- C4: key derivation slices 32 + 32 bytes off PBKDF2's 64-byte output
for the two cipher keys and takes the bytes from offset 64 onward as the
authentication key — so `authKey` is the empty byte string for every
master secret, salt and iteration count, not a sub-key of at least 32
bytes as the spec requires. -/
theorem c4_authKey_degenerate (prim : CryptoPrims) (masterKey : String) (salt : List Nat)
    (iterations : Nat) :
    (deriveKey prim masterKey salt iterations).authKey = [] ∧
    (deriveKey prim masterKey salt iterations).encryptionKey.length = 32 ∧
    (deriveKey prim masterKey salt iterations).chachaKey.length = 32 :=
  ⟨deriveKey_authKey prim masterKey salt iterations,
    deriveKey_encryptionKey_length prim masterKey salt iterations,
    deriveKey_chachaKey_length prim masterKey salt iterations⟩

/-- C5 counterexample: `chachaLayer` is not the per-block transform the
claim describes.  On a 65-byte input (two blocks) the code XORs the two
32-byte `HmacSHA256` outputs contiguously into bytes 0..63, so bytes
32..63 of block 0 are XORed with the counter-1 hash block, while the
spec's per-block transform XORs block 0 only with the counter-0 hash
block (zero-extended to the block length; under the repeat-extension
reading the two sides differ at the same input as well). -/
theorem c5_per_block_counterexample :
    chachaLayer sumPrims (List.replicate 65 0) [] (List.replicate 12 0) ≠
      specStreamTransform sumPrims (List.replicate 65 0) [] (List.replicate 12 0) := by
  decide

/-- C5 (amended): the stream layer is a contiguous-keystream XOR, not a
per-block one: output byte `j` (for `j` within the input) is input byte
`j` XORed with byte `j mod 32` of the keystream block whose counter is
`j / 32` — not `j / 64` — whenever `j / 32` is below the block count
`ceil(L/64)`, and with 0 (pass-through) otherwise. -/
theorem c5_keystream_byte_formula (prim : CryptoPrims) (data key nonce : List Nat)
    (j : Nat) (hj : j < data.length) :
    (chachaLayer prim data key nonce).getD j 0 =
      data.getD j 0 ^^^
        (if j / 32 < (data.length + 63) / 64 then
          (prim.HmacSHA256 (nonce ++ encode32 (j / 32)) key).getD (j % 32) 0
        else 0) := by
  unfold chachaLayer
  rw [xorKeystream_getD _ hj]
  by_cases hcase : j / 32 < (data.length + 63) / 64
  · rw [if_pos hcase, chachaKeystream_getD prim key nonce (by omega)]
  · rw [if_neg hcase, chachaKeystream_getD_high prim key nonce (by omega)]

/-- C5 witness: byte 33 of a 65-byte all-zero input is XORed with byte 1
of the counter-1 (`33 / 32 = 1`) hash block. -/
theorem c5_keystream_byte_witness :
    (chachaLayer sumPrims (List.replicate 65 0) [] (List.replicate 12 0)).getD 33 0 =
      (List.replicate 65 0).getD 33 0 ^^^
        (if 33 / 32 < ((List.replicate 65 0).length + 63) / 64 then
          (sumPrims.HmacSHA256 (List.replicate 12 0 ++ encode32 (33 / 32)) []).getD (33 % 32) 0
        else 0) :=
  c5_keystream_byte_formula sumPrims (List.replicate 65 0) [] (List.replicate 12 0) 33
    (by decide)

/-- C6: the generated keystream is only 32 bytes per 64-byte block, so
every output byte at a position at or beyond `32 * ceil(L/64)` is XORed
with 0 and passes through the stream layer unchanged. -/
theorem c6_tail_passthrough (prim : CryptoPrims) (data key nonce : List Nat) (j : Nat)
    (hj : 32 * ((data.length + 63) / 64) ≤ j) :
    (chachaLayer prim data key nonce).getD j 0 = data.getD j 0 := by
  by_cases hlen : j < data.length
  · unfold chachaLayer
    rw [xorKeystream_getD _ hlen, chachaKeystream_getD_high prim key nonce hj]
    exact Nat.xor_zero _
  · rw [List.getD_eq_default _ _ (by rw [chachaLayer_length]; omega),
      List.getD_eq_default _ _ (by omega)]

/-- C6 witness: a 40-byte input has one block and 32 keystream bytes, so
byte 35 passes through unchanged. -/
theorem c6_tail_passthrough_witness :
    (chachaLayer sumPrims (List.replicate 40 7) [] (List.replicate 12 0)).getD 35 0 =
      (List.replicate 40 7).getD 35 0 :=
  c6_tail_passthrough sumPrims (List.replicate 40 7) [] (List.replicate 12 0) 35 (by decide)

/-- C7 (amended): with the default 32-byte salt (and the always-12-byte
nonce) the decoded envelope is exactly `113 + L` bytes, where `L` is the
byte length of the cipher-layer output, and `getEncryptionInfo` reports
`ciphertextSize = L`.  With any other salt length the envelope is
`81 + saltLength + L` bytes and both figures are off by
`saltLength - 32` (see the counterexample), because `encrypt` embeds the
salt at its actual length while the offsets 113/226 are hard-coded. -/
theorem c7_envelope_length (prim : CryptoPrims) (plaintext masterKey : String)
    (iterP : Option Nat) (salt nonce : List Nat) (hs : salt.length = 32)
    (hn : nonce.length = 12) :
    (encrypt prim plaintext masterKey iterP salt nonce).ciphertext.length =
      113 + (cipherOutput prim plaintext masterKey iterP salt nonce).length ∧
    (getEncryptionInfo (encrypt prim plaintext masterKey iterP salt nonce).ciphertext).ciphertextSize =
      ((cipherOutput prim plaintext masterKey iterP salt nonce).length : Int) := by
  have hL := cipherOutput_length prim plaintext masterKey iterP salt nonce
  have hlen := encrypt_ciphertext_length prim plaintext masterKey iterP salt nonce
  constructor
  · rw [hlen, hL, hs, hn]
  · simp only [getEncryptionInfo]
    rw [hlen, hL, hs, hn]
    push_cast
    have h2 : (2 : Int) * (113 + ((utf8Bytes plaintext).length : Int)) - 226 =
        2 * ((utf8Bytes plaintext).length : Int) := by ring
    rw [h2]
    exact Int.mul_ediv_cancel_left _ (by norm_num)

/-- C7 witness: the invariant at a concrete call with the default salt
size. -/
theorem c7_envelope_length_witness :
    (encrypt zeroPrims "ab" "k" none (List.replicate 32 0)
        (List.replicate 12 0)).ciphertext.length =
      113 + (cipherOutput zeroPrims "ab" "k" none (List.replicate 32 0)
        (List.replicate 12 0)).length ∧
    (getEncryptionInfo (encrypt zeroPrims "ab" "k" none (List.replicate 32 0)
        (List.replicate 12 0)).ciphertext).ciphertextSize =
      ((cipherOutput zeroPrims "ab" "k" none (List.replicate 32 0)
        (List.replicate 12 0)).length : Int) :=
  c7_envelope_length zeroPrims "ab" "k" none (List.replicate 32 0) (List.replicate 12 0)
    (by decide) (by decide)

/-- C7 counterexample: with `saltSize = 16` the envelope is `97 + L`
bytes, not `113 + L`: the claim quantifies over all parameter choices
including `saltSize`, and fails for any salt length other than 32. -/
theorem c7_salt_size_counterexample :
    (encrypt zeroPrims "a" "k" none (List.replicate 16 0)
        (List.replicate 12 0)).ciphertext.length ≠
      113 + (cipherOutput zeroPrims "a" "k" none (List.replicate 16 0)
        (List.replicate 12 0)).length := by
  decide

/-- C8 (amended): `decrypt` never checks the envelope's total length and
has no `Truncated` error class; an input shorter than the 113-byte header
minimum still always fails, but with `UnsupportedVersion` (when the first
byte is absent or not 0x01) or with `AuthenticationFailed` (when the
first byte is 0x01: the stored-tag field is then shorter than 64 bytes
and can never equal the recomputed 64-byte tag).  In particular no
partial envelope is ever accepted. -/
theorem c8_short_input_fails (prim : CryptoPrims) (pkg : List Nat) (key : String)
    (hshort : pkg.length < 113) :
    decrypt prim pkg key = .error .unsupportedVersion ∨
    decrypt prim pkg key = .error .authenticationFailed := by
  by_cases hv : parsedVersion pkg = some 1
  · right
    refine (decrypt_eq_authFailed_iff prim pkg key).mpr ⟨hv, fun heq => ?_⟩
    have h1 := congrArg List.length heq
    rw [decryptComputedTag_length] at h1
    simp only [parsedTag, List.length_take, List.length_drop] at h1
    omega
  · left
    simp only [decrypt]
    rw [if_pos hv]

/-- C8 witness: a one-byte envelope whose single byte is the valid
version 0x01 fails the (length-truncated) tag comparison. -/
theorem c8_short_input_witness :
    decrypt zeroPrims [1] "k" = .error .unsupportedVersion ∨
    decrypt zeroPrims [1] "k" = .error .authenticationFailed :=
  c8_short_input_fails zeroPrims [1] "k" (by decide)

/-- C8 counterexample: the empty input is shorter than 113 bytes but
fails with `UnsupportedVersion` (`parseInt('', 16)` is `NaN`), not with
the `Truncated` error the claim requires. -/
theorem c8_truncated_counterexample :
    decrypt zeroPrims [] "k" = .error .unsupportedVersion ∧
    decrypt zeroPrims [] "k" ≠ .error .truncated :=
  ⟨by decide, by decide⟩

/-- C9: any envelope whose first byte is not 0x01 (including the empty
envelope, whose version field parses to NaN) is rejected with
`UnsupportedVersion`, whatever the rest of the envelope — in particular
whatever the tag field — contains: the version gate precedes tag
verification. -/
theorem c9_version_gate (prim : CryptoPrims) (pkg : List Nat) (key : String)
    (hv : pkg.head? ≠ some 1) :
    decrypt prim pkg key = .error .unsupportedVersion := by
  simp only [decrypt]
  rw [if_pos (by rw [parsedVersion_eq_head]; exact hv)]

/-- C9 witness: version byte 0x02 with an arbitrary remainder is
rejected. -/
theorem c9_version_gate_witness :
    decrypt zeroPrims [2, 1, 1] "k" = .error .unsupportedVersion :=
  c9_version_gate zeroPrims [2, 1, 1] "k" (by decide)

/-- C10: whenever `decrypt` returns normally, the returned plaintext is
non-empty — a recovered empty plaintext is turned into the
`Decryption failed - resulting plaintext is empty` error instead. -/
theorem c10_ok_nonempty (prim : CryptoPrims) (pkg : List Nat) (key : String) (s : String)
    (h : decrypt prim pkg key = .ok s) : s ≠ "" :=
  decrypt_ok_imp h

/-- C10 witness: a successful concrete decryption returns a non-empty
string. -/
theorem c10_ok_nonempty_witness :
    decrypt zeroPrims
      (encrypt zeroPrims "a" "k" none (List.replicate 32 0)
        (List.replicate 12 0)).ciphertext "k" = .ok "a" ∧ "a" ≠ "" :=
  ⟨by decide,
    c10_ok_nonempty zeroPrims
      (encrypt zeroPrims "a" "k" none (List.replicate 32 0) (List.replicate 12 0)).ciphertext
      "k" "a" (by decide)⟩
